import Mathlib

/-!
Shallow embedding of `src/core/workspace_svg.js` (Blockly.WorkspaceSvg):
the paste collision-avoidance placement, delete-area hit-testing, the
audio subsystem (load / preload / play), render-all and dispose.
Coordinates are modelled as integers (surface units); volumes as rationals.
-/

namespace Blockly

/-- A point in workspace surface coordinates (goog.math.Coordinate). -/
@[ext]
structure Coord where
  x : Int
  y : Int
deriving DecidableEq, Repr

/-- The collision test of `WorkspaceSvg.prototype.paste`:
`Math.abs(blockX - otherXY.x) <= 1 && Math.abs(blockY - otherXY.y) <= 1`. -/
def collideB (c b : Coord) : Bool :=
  (c.x - b.x).natAbs ≤ 1 && (c.y - b.y).natAbs ≤ 1

/-- One displacement of the paste candidate on collision:
`blockX -= SNAP_RADIUS` (RTL) or `blockX += SNAP_RADIUS` (LTR), and
`blockY += SNAP_RADIUS * 2`. -/
def bump (RTL : Bool) (S : Int) (c : Coord) : Coord :=
  ⟨if RTL then c.x - S else c.x + S, c.y + 2 * S⟩

/-- The inner `for` loop of `paste`: walk `allBlocks`, bumping the candidate
whenever the current block collides with the current candidate, and record
in the second component whether any collision happened (`collide`). -/
def pasteScan (RTL : Bool) (S : Int) : List Coord → Coord → Bool → Coord × Bool
  | [], c, col => (c, col)
  | b :: bs, c, col =>
      if collideB c b then pasteScan RTL S bs (bump RTL S c) true
      else pasteScan RTL S bs c col

/-- The `do { ... } while (collide)` loop of `paste`, with explicit fuel
(the JS loop is unbounded; `none` means the fuel ran out). -/
def pasteLoop (RTL : Bool) (S : Int) (blocks : List Coord) :
    Nat → Coord → Option Coord
  | 0, _ => none
  | fuel + 1, c =>
      if (pasteScan RTL S blocks c false).2 then
        pasteLoop RTL S blocks fuel (pasteScan RTL S blocks c false).1
      else some (pasteScan RTL S blocks c false).1

/-- Does any block collide with the candidate? -/
def anyCollide (blocks : List Coord) (c : Coord) : Bool :=
  blocks.any (fun b => collideB c b)

/-- Modelled from the spec: the displacement loop as the specification words
it — on any collision, shift the candidate once and re-scan from the top;
stop as soon as a scan finds zero collisions.  Used only to compare the
spec's algorithm with the source's `pasteLoop`. -/
def specLoop (RTL : Bool) (S : Int) (blocks : List Coord) :
    Nat → Coord → Option Coord
  | 0, _ => none
  | fuel + 1, c =>
      if anyCollide blocks c then specLoop RTL S blocks fuel (bump RTL S c)
      else some c

/-- The serialized block handed to `paste`: the number of descendant
`<block>` elements (`xmlBlock.getElementsByTagName('block').length`, which
does not count the root element itself) and the parsed `x`/`y` attributes
(`parseInt` of a missing or unparseable attribute is `NaN`, modelled as
`none`). -/
structure XmlBlock where
  descendantBlocks : Nat
  posX : Option Int
  posY : Option Int
deriving DecidableEq, Repr

/-- The workspace state `paste` reads: text direction, the positions of the
blocks already on the workspace (in `getAllBlocks` order), and the value of
the inherited `remainingCapacity()` call. -/
structure Ws where
  RTL : Bool
  blocks : List Coord
  remainingCapacity : Int
deriving DecidableEq, Repr

/-- Modelled from the spec: the deserialization collaborator
(`Blockly.Xml.domToBlock`, not under src/) adds the new block to the
workspace at the origin; `paste` then applies the computed candidate as a
relative `moveBy`. -/
def domToBlockStart : Coord := ⟨0, 0⟩

/-- Outcome of `paste`: silently rejected at the capacity gate, fuel
exhausted inside the displacement loop, or the block pasted at a final
position with its selection flag. -/
inductive PasteResult where
  | rejected : PasteResult
  | fuelOut : PasteResult
  | pasted : Coord → Bool → PasteResult
deriving DecidableEq, Repr

/-- `WorkspaceSvg.prototype.paste`: reject when the descendant-block count
reaches `remainingCapacity()`; otherwise deserialize (adding the new block,
so the collision scan sees `ws.blocks ++ [domToBlockStart]`), negate the
recorded x under RTL, run the displacement loop when both coordinates
parsed, `moveBy` the result relative to the deserialized position, and
select the block. -/
def paste (S : Int) (fuel : Nat) (ws : Ws) (xml : XmlBlock) : PasteResult :=
  if (xml.descendantBlocks : Int) ≥ ws.remainingCapacity then .rejected
  else
    match xml.posX, xml.posY with
    | some x, some y =>
        let bx : Int := if ws.RTL then -x else x
        let allB := ws.blocks ++ [domToBlockStart]
        match pasteLoop ws.RTL S allB fuel ⟨bx, y⟩ with
        | none => .fuelOut
        | some c =>
            .pasted ⟨domToBlockStart.x + c.x, domToBlockStart.y + c.y⟩ true
    | _, _ => .pasted domToBlockStart true

/-! ### Delete-area hit-testing (`isDeleteArea`) -/

/-- A delete-area rectangle.  `goog.math.Rect.prototype.contains` on a
coordinate is boundary-inclusive, as the spec also stipulates. -/
structure Rect where
  left : Int
  top : Int
  width : Int
  height : Int
deriving DecidableEq, Repr

/-- Boundary-inclusive point containment of `goog.math.Rect`. -/
def Rect.containsPt (r : Rect) (p : Coord) : Bool :=
  r.left ≤ p.x && p.x ≤ r.left + r.width && r.top ≤ p.y && p.y ≤ r.top + r.height

/-- The cursor states `isDeleteArea` can set (`Blockly.Css.Cursor`). -/
inductive Cursor where
  | openHand : Cursor
  | closedHand : Cursor
  | deleteHand : Cursor
deriving DecidableEq, Repr

/-- The state `isDeleteArea` reads and mutates: the two recorded delete
rectangles (`deleteAreaTrash_`, `deleteAreaToolbox_`), the trashcan's
open/closed lid, and the document cursor. -/
structure DeleteAreaState where
  trashRect : Option Rect
  toolboxRect : Option Rect
  trashOpen : Bool
  cursor : Cursor
deriving DecidableEq, Repr

/-- The toolbox half of `isDeleteArea` (everything after the trash check). -/
def checkToolbox (st : DeleteAreaState) (p : Coord) : DeleteAreaState × Bool :=
  match st.toolboxRect with
  | some r =>
      if r.containsPt p then ({ st with cursor := .deleteHand }, true)
      else ({ st with cursor := .closedHand }, false)
  | none => ({ st with cursor := .closedHand }, false)

/-- `WorkspaceSvg.prototype.isDeleteArea`, on the pointer position already
converted to surface coordinates (`Blockly.mouseToSvg`).  Returns the
mutated state and the boolean result. -/
def isDeleteArea (st : DeleteAreaState) (p : Coord) : DeleteAreaState × Bool :=
  match st.trashRect with
  | some r =>
      if r.containsPt p then
        ({ st with trashOpen := true, cursor := .deleteHand }, true)
      else checkToolbox { st with trashOpen := false } p
  | none => checkToolbox st p

/-! ### Audio subsystem (`loadAudio_`, `preloadAudio_`, `playAudio`) -/

/-- The sound cache `SOUNDS_`: a JS object used as a map from logical name
to the cached audio handle (here, the chosen filename).  A plain object has
at most one value per key; assignment to an existing key keeps its
position, assignment to a fresh key appends (JS string-key insertion
order, which `for ... in` follows). -/
abbrev SoundMap := List (String × String)

/-- JS object assignment `SOUNDS_[name] = sound`. -/
def insertSound : SoundMap → String → String → SoundMap
  | [], n, f => [(n, f)]
  | (k, v) :: rest, n, f =>
      if k = n then (k, f) :: rest else (k, v) :: insertSound rest n f

/-- JS object read `SOUNDS_[name]` (`undefined` when absent). -/
def lookupSound (m : SoundMap) (name : String) : Option String :=
  match m with
  | [] => none
  | (k, v) :: rest => if k = name then some v else lookupSound rest name

def isWordChar (c : Char) : Bool :=
  c.isAlphanum || c = '_'

/-- The regex probe `filename.match(/\.(\w+)$/)` of `loadAudio_`: the
captured group is the maximal trailing run of word characters, provided it
is nonempty and preceded by a dot. -/
def extMatch (s : String) : Option String :=
  let cs := s.data.reverse
  let tail := cs.takeWhile isWordChar
  if tail.isEmpty then none
  else
    match cs.drop tail.length with
    | '.' :: _ => some (String.mk tail.reverse)
    | _ => none

/-- The format-selection loop of `loadAudio_`: first filename whose
extension the capability probe declares playable
(`audioTest.canPlayType('audio/' + ext[1])`). -/
def firstPlayable (canPlay : String → Bool) : List String → Option String
  | [] => none
  | f :: fs =>
      match extMatch f with
      | some e => if canPlay ("audio/" ++ e) then some f else firstPlayable canPlay fs
      | none => firstPlayable canPlay fs

/-- `WorkspaceSvg.prototype.loadAudio_`: no-op without Audio support or
with an empty candidate list; otherwise cache the first playable candidate
under `name`, leaving the cache untouched when no candidate is playable. -/
def loadAudio_ (audioSupported : Bool) (canPlay : String → Bool)
    (filenames : List String) (name : String) (sounds : SoundMap) : SoundMap :=
  if !audioSupported || filenames.isEmpty then sounds
  else
    match firstPlayable canPlay filenames with
    | some f => insertSound sounds name f
    | none => sounds

/-- The platform flags the audio code consults (`goog.userAgent` and the
IE9 document-mode test). -/
structure Platform where
  ie9 : Bool
  ipad : Bool
  iphone : Bool
  android : Bool
deriving DecidableEq, Repr

/-- One observable play/pause of `preloadAudio_`: the sound's name and the
volume it was set to. -/
structure PreloadAct where
  name : String
  volume : Rat
deriving DecidableEq, Repr

/-- `WorkspaceSvg.prototype.preloadAudio_`: play each cached sound at
volume .01 and pause it; on iPad/iPhone break after processing the first
sound. -/
def preloadAudio_ (pf : Platform) : SoundMap → List PreloadAct
  | [] => []
  | (n, _) :: rest =>
      if pf.ipad || pf.iphone then [⟨n, 1 / 100⟩]
      else ⟨n, 1 / 100⟩ :: preloadAudio_ pf rest

/-- One observable playback of `playAudio`: which cached file played, at
what volume, and whether a `cloneNode()` copy was used rather than the
cached handle itself. -/
structure PlayAct where
  file : String
  volume : Rat
  cloned : Bool
deriving DecidableEq, Repr

/-- `WorkspaceSvg.prototype.playAudio`, on the chain of sound caches
starting at this workspace and continuing through
`options.parentWorkspace` ancestors (the empty list models a workspace
with no parent).  Unmatched everywhere is a silent no-op (`none`). -/
def playAudio (pf : Platform) : List SoundMap → String → Option Rat → Option PlayAct
  | [], _, _ => none
  | m :: parents, name, vol =>
      match lookupSound m name with
      | some f =>
          let direct := pf.ie9 || pf.ipad || pf.android
          some ⟨f, match vol with | none => 1 | some v => v, !direct⟩
      | none => playAudio pf parents name vol

/-! ### Render-all (`render`) -/

/-- A rendered block: an identifier and its connected child blocks
(`getChildren()`). -/
inductive Block where
  | node : Nat → List Block → Block

def Block.id : Block → Nat
  | .node i _ => i

def Block.children : Block → List Block
  | .node _ cs => cs

/-- Modelled from the spec: the inherited `getAllBlocks()` (base
`Blockly.Workspace`, not under src/) returns every block reachable from
the top-level set. -/
def allBlocksL : List Block → List Block
  | [] => []
  | Block.node i cs :: bs => Block.node i cs :: (allBlocksL cs ++ allBlocksL bs)

/-- `WorkspaceSvg.prototype.render`: walk `getAllBlocks()` and call
`block.render()` exactly on the blocks with no children; returns the ids
of the blocks rendered, in order. -/
def renderAll (tops : List Block) : List Nat :=
  (allBlocksL tops).foldr
    (fun b acc => if b.children.isEmpty then b.id :: acc else acc) []

/-! ### Teardown (`dispose`) -/

/-- The lifecycle state `dispose` mutates.  DOM references and owned
sub-components are modelled by presence flags (`true` = non-null). -/
structure WsLifecycle where
  rendered : Bool
  topBlocks : List Nat
  svgGroup_ : Bool
  svgBlockCanvas_ : Bool
  svgBubbleCanvas_ : Bool
  flyout_ : Bool
  trashcan : Bool
deriving DecidableEq, Repr

/-- Modelled from the spec: the inherited `Workspace.prototype.dispose`
(not under src/) releases the block bookkeeping (`clear`), emptying the
top-level block set. -/
def baseDispose (ws : WsLifecycle) : WsLifecycle :=
  { ws with topBlocks := [] }

/-- `WorkspaceSvg.prototype.dispose`: clear `rendered` first, run the
superclass dispose, then null the SVG group (guarded), the two canvases,
and — each guarded by its own null check — dispose the flyout and the
trashcan. -/
def dispose (ws : WsLifecycle) : WsLifecycle :=
  let ws := { ws with rendered := false }
  let ws := baseDispose ws
  let ws := if ws.svgGroup_ then { ws with svgGroup_ := false } else ws
  let ws := { ws with svgBlockCanvas_ := false, svgBubbleCanvas_ := false }
  let ws := if ws.flyout_ then { ws with flyout_ := false } else ws
  if ws.trashcan then { ws with trashcan := false } else ws

/-- The fully-released state `dispose` leaves behind. -/
def disposedState : WsLifecycle :=
  ⟨false, [], false, false, false, false, false⟩

/-! ## Helper lemmas -/

theorem dispose_eq (ws : WsLifecycle) : dispose ws = disposedState := by
  cases ws with
  | mk r tb g bc bub fl tc =>
    cases g <;> cases fl <;> cases tc <;>
      simp [dispose, baseDispose, disposedState]

theorem renderFold_eq (l : List Block) :
    l.foldr (fun b acc => if b.children.isEmpty then b.id :: acc else acc) []
      = (l.filter (fun b => b.children.isEmpty)).map Block.id := by
  induction l with
  | nil => rfl
  | cons b bs ih =>
    by_cases hb : b.children.isEmpty <;> simp [List.filter_cons, hb, ih]

theorem renderAll_mem (tops : List Block) (i : Nat) :
    i ∈ renderAll tops ↔ ∃ b, b ∈ allBlocksL tops ∧ b.id = i ∧ b.children = [] := by
  rw [renderAll, renderFold_eq]
  simp only [List.mem_map, List.mem_filter, List.isEmpty_iff]
  constructor
  · rintro ⟨b, ⟨hb, hc⟩, rfl⟩
    exact ⟨b, hb, rfl, hc⟩
  · rintro ⟨b, hb, rfl, hc⟩
    exact ⟨b, ⟨hb, hc⟩, rfl⟩

theorem lookupSound_insertSound_self (m : SoundMap) (n f : String) :
    lookupSound (insertSound m n f) n = some f := by
  induction m with
  | nil => simp [insertSound, lookupSound]
  | cons kv rest ih =>
    obtain ⟨k, v⟩ := kv
    by_cases hk : k = n
    · simp [insertSound, lookupSound, hk]
    · simp [insertSound, lookupSound, hk, ih]

theorem lookupSound_insertSound_other (m : SoundMap) (n f n' : String)
    (h : n' ≠ n) : lookupSound (insertSound m n f) n' = lookupSound m n' := by
  have hn : n ≠ n' := Ne.symm h
  induction m with
  | nil => simp [insertSound, lookupSound, hn]
  | cons kv rest ih =>
    obtain ⟨k, v⟩ := kv
    by_cases hk : k = n
    · subst hk
      simp [insertSound, lookupSound, hn]
    · by_cases hk' : k = n'
      · simp [insertSound, lookupSound, hk, hk', h, hn]
      · simp [insertSound, lookupSound, hk, hk', ih]

theorem insertSound_keys (m : SoundMap) (n f : String) :
    (insertSound m n f).map Prod.fst =
      if n ∈ m.map Prod.fst then m.map Prod.fst else m.map Prod.fst ++ [n] := by
  induction m with
  | nil => simp [insertSound]
  | cons kv rest ih =>
    obtain ⟨k, v⟩ := kv
    have hkc : (n ∈ k :: rest.map Prod.fst) = (n = k ∨ n ∈ rest.map Prod.fst) := by
      simp [List.mem_cons]
    by_cases hk : k = n
    · subst hk
      simp [insertSound]
    · have hnk : ¬n = k := fun hc => hk hc.symm
      by_cases hm : n ∈ rest.map Prod.fst
      · simp [insertSound, hk, ih, hm, hnk]
      · simp [insertSound, hk, ih, hm, hnk]

theorem preloadAudio_mobile (pf : Platform) (sounds : SoundMap)
    (h : (pf.ipad || pf.iphone) = true) :
    preloadAudio_ pf sounds =
      (sounds.take 1).map (fun nf => ⟨nf.1, 1 / 100⟩) := by
  cases sounds with
  | nil => simp [preloadAudio_]
  | cons nf rest =>
    obtain ⟨n, f⟩ := nf
    simp [preloadAudio_, h]

theorem preloadAudio_desktop (pf : Platform) (sounds : SoundMap)
    (h : (pf.ipad || pf.iphone) = false) :
    preloadAudio_ pf sounds = sounds.map (fun nf => ⟨nf.1, 1 / 100⟩) := by
  induction sounds with
  | nil => simp [preloadAudio_]
  | cons nf rest ih =>
    obtain ⟨n, f⟩ := nf
    simp [preloadAudio_, h, ih]

theorem playAudio_volume (pf : Platform) (chain : List SoundMap)
    (name : String) (vol : Option Rat) (act : PlayAct)
    (h : playAudio pf chain name vol = some act) :
    act.volume = vol.getD 1 := by
  induction chain with
  | nil => simp [playAudio] at h
  | cons m parents ih =>
    cases hl : lookupSound m name with
    | some f =>
      simp only [playAudio, hl] at h
      cases h
      cases vol <;> rfl
    | none =>
      simp only [playAudio, hl] at h
      exact ih h

theorem collideB_true_iff (c b : Coord) :
    collideB c b = true ↔ (c.x - b.x).natAbs ≤ 1 ∧ (c.y - b.y).natAbs ≤ 1 := by
  simp [collideB]

theorem anyCollide_true_iff (blocks : List Coord) (c : Coord) :
    anyCollide blocks c = true ↔ ∃ b ∈ blocks, collideB c b = true := by
  simp [anyCollide, List.any_eq_true]

theorem anyCollide_false_iff (blocks : List Coord) (c : Coord) :
    anyCollide blocks c = false ↔ ∀ b ∈ blocks, collideB c b = false := by
  constructor
  · intro h b hb
    by_contra hne
    have hbt : collideB c b = true := by
      revert hne
      cases collideB c b <;> simp
    have := (anyCollide_true_iff blocks c).mpr ⟨b, hb, hbt⟩
    rw [h] at this
    cases this
  · intro h
    by_contra hne
    have hat : anyCollide blocks c = true := by
      revert hne
      cases anyCollide blocks c <;> simp
    obtain ⟨b, hb, hbt⟩ := (anyCollide_true_iff blocks c).mp hat
    rw [h b hb] at hbt
    cases hbt

theorem pasteScan_col_true (RTL : Bool) (S : Int) (bs : List Coord) :
    ∀ c : Coord, (pasteScan RTL S bs c true).2 = true := by
  induction bs with
  | nil => intro c; rfl
  | cons b bs ih =>
    intro c
    by_cases hcb : collideB c b = true
    · rw [pasteScan, if_pos hcb]
      exact ih _
    · rw [pasteScan, if_neg hcb]
      exact ih _

theorem pasteScan_spec (RTL : Bool) (S : Int) (bs : List Coord) :
    ∀ (c : Coord) (col : Bool) (c' : Coord) (col' : Bool),
      pasteScan RTL S bs c col = (c', col') →
      ∃ m : Nat,
        c' = (bump RTL S)^[m] c ∧
        (∀ j < m, ∃ b ∈ bs, collideB ((bump RTL S)^[j] c) b = true) ∧
        (col' = false → col = false ∧ m = 0 ∧ ∀ b ∈ bs, collideB c b = false) ∧
        ((∃ b ∈ bs, collideB c b = true) → 1 ≤ m ∧ col' = true) := by
  induction bs with
  | nil =>
    intro c col c' col' h
    cases h
    refine ⟨0, by simp, by omega, fun hc => ⟨hc, rfl, by simp⟩, ?_⟩
    rintro ⟨b, hb, -⟩
    cases hb
  | cons b bs ih =>
    intro c col c' col' h
    by_cases hcb : collideB c b = true
    · rw [pasteScan, if_pos hcb] at h
      obtain ⟨m, hm, hdirty, hfalse, -⟩ := ih (bump RTL S c) true c' col' h
      refine ⟨m + 1, ?_, ?_, ?_, ?_⟩
      · rw [hm, Function.iterate_succ_apply]
      · intro j hj
        cases j with
        | zero => exact ⟨b, List.mem_cons_self b bs, by simpa using hcb⟩
        | succ j' =>
          obtain ⟨b', hb', hcoll⟩ := hdirty j' (by omega)
          exact ⟨b', List.mem_cons_of_mem _ hb',
            by rwa [Function.iterate_succ_apply]⟩
      · intro hcf
        obtain ⟨hct, -, -⟩ := hfalse hcf
        cases hct
      · intro _
        have hc2 := pasteScan_col_true RTL S bs (bump RTL S c)
        rw [h] at hc2
        exact ⟨by omega, hc2⟩
    · rw [pasteScan, if_neg hcb] at h
      obtain ⟨m, hm, hdirty, hfalse, hdirty1⟩ := ih c col c' col' h
      refine ⟨m, hm, ?_, ?_, ?_⟩
      · intro j hj
        obtain ⟨b', hb', hcoll⟩ := hdirty j hj
        exact ⟨b', List.mem_cons_of_mem _ hb', hcoll⟩
      · intro hcf
        obtain ⟨hcol, hm0, hclean⟩ := hfalse hcf
        refine ⟨hcol, hm0, ?_⟩
        intro b'' hb''
        rcases List.mem_cons.mp hb'' with rfl | hmem
        · revert hcb
          cases collideB c b'' <;> simp
        · exact hclean b'' hmem
      · rintro ⟨b', hb', hcoll⟩
        rcases List.mem_cons.mp hb' with rfl | hmem
        · exact absurd hcoll hcb
        · exact hdirty1 ⟨b', hmem, hcoll⟩

theorem pasteScan_clean (RTL : Bool) (S : Int) (bs : List Coord) :
    ∀ (c : Coord) (col : Bool), (∀ b ∈ bs, collideB c b = false) →
      pasteScan RTL S bs c col = (c, col) := by
  induction bs with
  | nil => intro c col _; rfl
  | cons b bs ih =>
    intro c col h
    have hb : collideB c b = false := h b (List.mem_cons_self b bs)
    rw [pasteScan, if_neg (by simp [hb])]
    exact ih c col (fun b' hb' => h b' (List.mem_cons_of_mem _ hb'))

theorem pasteLoop_spec (RTL : Bool) (S : Int) (blocks : List Coord) :
    ∀ (fuel : Nat) (c c' : Coord), pasteLoop RTL S blocks fuel c = some c' →
      ∃ k : Nat, c' = (bump RTL S)^[k] c ∧
        (∀ j < k, ∃ b ∈ blocks, collideB ((bump RTL S)^[j] c) b = true) ∧
        (∀ b ∈ blocks, collideB c' b = false) := by
  intro fuel
  induction fuel with
  | zero => intro c c' h; cases h
  | succ fuel ih =>
    intro c c' h
    rw [pasteLoop] at h
    rcases hscan : pasteScan RTL S blocks c false with ⟨c₁, col⟩
    rw [hscan] at h
    cases col with
    | false =>
      simp only [Prod.snd, Bool.false_eq_true, if_false, Prod.fst,
        Option.some.injEq] at h
      obtain ⟨m, hm, -, hfalse, -⟩ := pasteScan_spec RTL S blocks c false c₁ false hscan
      obtain ⟨-, hm0, hclean⟩ := hfalse rfl
      subst hm0
      simp only [Function.iterate_zero_apply] at hm
      refine ⟨0, ?_, by omega, ?_⟩
      · rw [Function.iterate_zero_apply, ← h, hm]
      · intro b hb
        rw [← h, hm]
        exact hclean b hb
    | true =>
      simp only [Prod.snd, if_true, Prod.fst] at h
      obtain ⟨m, hm, hdirty, -, -⟩ := pasteScan_spec RTL S blocks c false c₁ true hscan
      obtain ⟨k₁, hk₁, hdirty₁, hclean₁⟩ := ih c₁ c' h
      refine ⟨k₁ + m, ?_, ?_, hclean₁⟩
      · rw [hk₁, hm, ← Function.iterate_add_apply]
      · intro j hj
        by_cases hjm : j < m
        · exact hdirty j hjm
        · have hje : (bump RTL S)^[j - m] c₁ = (bump RTL S)^[j] c := by
            rw [hm, ← Function.iterate_add_apply]
            congr 1
            omega
          obtain ⟨b, hb, hcoll⟩ := hdirty₁ (j - m) (by omega)
          rw [hje] at hcoll
          exact ⟨b, hb, hcoll⟩

theorem specLoop_spec (RTL : Bool) (S : Int) (blocks : List Coord) :
    ∀ (fuel : Nat) (c c' : Coord), specLoop RTL S blocks fuel c = some c' →
      ∃ k : Nat, c' = (bump RTL S)^[k] c ∧
        (∀ j < k, anyCollide blocks ((bump RTL S)^[j] c) = true) ∧
        anyCollide blocks c' = false := by
  intro fuel
  induction fuel with
  | zero => intro c c' h; cases h
  | succ fuel ih =>
    intro c c' h
    rw [specLoop] at h
    by_cases hcol : anyCollide blocks c = true
    · rw [if_pos hcol] at h
      obtain ⟨k, hk, hdirty, hclean⟩ := ih (bump RTL S c) c' h
      refine ⟨k + 1, by rw [hk, Function.iterate_succ_apply], ?_, hclean⟩
      intro j hj
      cases j with
      | zero => simpa using hcol
      | succ j' =>
        have := hdirty j' (by omega)
        rwa [Function.iterate_succ_apply]
    · rw [if_neg hcol] at h
      have hc := Option.some.inj h
      subst hc
      refine ⟨0, by simp, by omega, ?_⟩
      revert hcol
      cases anyCollide blocks c <;> simp

theorem loops_agree (RTL : Bool) (S : Int) (blocks : List Coord)
    (fuel₁ fuel₂ : Nat) (c c₁ c₂ : Coord)
    (h₁ : pasteLoop RTL S blocks fuel₁ c = some c₁)
    (h₂ : specLoop RTL S blocks fuel₂ c = some c₂) : c₁ = c₂ := by
  obtain ⟨k₁, e₁, d₁, cl₁⟩ := pasteLoop_spec RTL S blocks fuel₁ c c₁ h₁
  obtain ⟨k₂, e₂, d₂, cl₂⟩ := specLoop_spec RTL S blocks fuel₂ c c₂ h₂
  have hk : k₁ = k₂ := by
    by_contra hne
    rcases Nat.lt_or_ge k₁ k₂ with hlt | hge
    · have hd := d₂ k₁ hlt
      rw [← e₁] at hd
      obtain ⟨b, hb, hcoll⟩ := (anyCollide_true_iff blocks c₁).mp hd
      rw [cl₁ b hb] at hcoll
      cases hcoll
    · have hlt' : k₂ < k₁ := by omega
      obtain ⟨b, hb, hcoll⟩ := d₁ k₂ hlt'
      rw [← e₂] at hcoll
      rw [(anyCollide_false_iff blocks c₂).mp cl₂ b hb] at hcoll
      cases hcoll
  rw [e₁, e₂, hk]

theorem bump_iterate (RTL : Bool) (S : Int) (c : Coord) (k : Nat) :
    (bump RTL S)^[k] c =
      ⟨c.x + (if RTL then -((k : Int) * S) else (k : Int) * S),
       c.y + 2 * ((k : Int) * S)⟩ := by
  induction k with
  | zero => simp
  | succ k ih =>
    rw [Function.iterate_succ_apply', ih, bump]
    cases RTL <;> simp [Coord.mk.injEq] <;> constructor <;> ring

theorem bump_no_shared_block (RTL : Bool) (S : Int) (hS : 2 ≤ S) (c : Coord)
    (j₁ j₂ : Nat) (b : Coord) (hne : j₁ ≠ j₂)
    (h₁ : collideB ((bump RTL S)^[j₁] c) b = true)
    (h₂ : collideB ((bump RTL S)^[j₂] c) b = true) : False := by
  rw [bump_iterate, collideB_true_iff] at h₁ h₂
  obtain ⟨-, hy₁⟩ := h₁
  obtain ⟨-, hy₂⟩ := h₂
  dsimp only at hy₁ hy₂
  set u : Int := (j₁ : Int) * S with hu
  set v : Int := (j₂ : Int) * S with hv
  have hbound : -1 ≤ u - v ∧ u - v ≤ 1 := by omega
  have huv : u - v = ((j₁ : Int) - (j₂ : Int)) * S := by rw [hu, hv]; ring
  have hj0 : ((j₁ : Int) - (j₂ : Int)) ≠ 0 := by
    intro h0
    apply hne
    omega
  have h1a : (1 : Int) ≤ |(j₁ : Int) - (j₂ : Int)| := Int.one_le_abs hj0
  have h2a : (2 : Int) ≤ |u - v| := by
    rw [huv, abs_mul, abs_of_nonneg (by omega : (0:Int) ≤ S)]
    nlinarith
  have h3a : |u - v| ≤ 1 := abs_le.mpr hbound
  omega

theorem exists_clean (RTL : Bool) (S : Int) (hS : 2 ≤ S)
    (blocks : List Coord) (c : Coord) :
    ∃ k ≤ blocks.length,
      ∀ b ∈ blocks, collideB ((bump RTL S)^[k] c) b = false := by
  by_contra hcon
  push_neg at hcon
  have hd : ∀ k : Nat, k ≤ blocks.length →
      ∃ b, b ∈ blocks ∧ collideB ((bump RTL S)^[k] c) b = true := by
    intro k hk
    obtain ⟨b, hb, hne⟩ := hcon k hk
    refine ⟨b, hb, ?_⟩
    revert hne
    cases collideB ((bump RTL S)^[k] c) b <;> simp
  classical
  have hcard : (blocks.toFinset).card < (Finset.range (blocks.length + 1)).card := by
    have hle := blocks.toFinset_card_le
    rw [Finset.card_range]
    omega
  have hmaps : ∀ k ∈ Finset.range (blocks.length + 1),
      (fun k => if h : k ≤ blocks.length then (hd k h).choose else c) k
        ∈ blocks.toFinset := by
    intro k hk
    have hk' : k ≤ blocks.length := by
      have := Finset.mem_range.mp hk
      omega
    simp only [dif_pos hk']
    exact List.mem_toFinset.mpr (hd k hk').choose_spec.1
  obtain ⟨j₁, hj₁, j₂, hj₂, hne, hfe⟩ :=
    Finset.exists_ne_map_eq_of_card_lt_of_maps_to hcard hmaps
  have hj₁' : j₁ ≤ blocks.length := by
    have := Finset.mem_range.mp hj₁
    omega
  have hj₂' : j₂ ≤ blocks.length := by
    have := Finset.mem_range.mp hj₂
    omega
  simp only [dif_pos hj₁', dif_pos hj₂'] at hfe
  refine bump_no_shared_block RTL S hS c j₁ j₂ (hd j₁ hj₁').choose hne
    (hd j₁ hj₁').choose_spec.2 ?_
  rw [hfe]
  exact (hd j₂ hj₂').choose_spec.2

theorem pasteLoop_progress (RTL : Bool) (S : Int) (blocks : List Coord) :
    ∀ (fuel k : Nat) (c : Coord),
      (∀ j < k, ∃ b ∈ blocks, collideB ((bump RTL S)^[j] c) b = true) →
      (∀ b ∈ blocks, collideB ((bump RTL S)^[k] c) b = false) →
      k < fuel →
      pasteLoop RTL S blocks fuel c = some ((bump RTL S)^[k] c) := by
  intro fuel
  induction fuel with
  | zero => intro k c _ _ hk; omega
  | succ fuel ih =>
    intro k c hdirty hclean hk
    cases k with
    | zero =>
      have hscan : pasteScan RTL S blocks c false = (c, false) :=
        pasteScan_clean RTL S blocks c false (by simpa using hclean)
      rw [pasteLoop, hscan]
      simp
    | succ k' =>
      rcases hscan : pasteScan RTL S blocks c false with ⟨c₁, col⟩
      obtain ⟨m, hm, hmdirty, -, hm1⟩ :=
        pasteScan_spec RTL S blocks c false c₁ col hscan
      have hc0 : ∃ b ∈ blocks, collideB c b = true := by
        simpa using hdirty 0 (by omega)
      obtain ⟨hm1', hcol⟩ := hm1 hc0
      subst hcol
      rw [pasteLoop, hscan]
      simp only [Prod.snd, if_true, Prod.fst]
      have hmk : m ≤ k' + 1 := by
        by_contra hgt
        push_neg at hgt
        obtain ⟨b, hb, hcoll⟩ := hmdirty (k' + 1) hgt
        rw [hclean b hb] at hcoll
        cases hcoll
      have harith : ∀ j : Nat, (bump RTL S)^[j] c₁ = (bump RTL S)^[j + m] c := by
        intro j
        rw [hm, ← Function.iterate_add_apply]
      have hdirty' : ∀ j < k' + 1 - m,
          ∃ b ∈ blocks, collideB ((bump RTL S)^[j] c₁) b = true := by
        intro j hj
        rw [harith]
        exact hdirty (j + m) (by omega)
      have hclean' : ∀ b ∈ blocks,
          collideB ((bump RTL S)^[k' + 1 - m] c₁) b = false := by
        rw [harith]
        have he : k' + 1 - m + m = k' + 1 := by omega
        rw [he]
        exact hclean
      rw [ih (k' + 1 - m) c₁ hdirty' hclean' (by omega), harith]
      have he : k' + 1 - m + m = k' + 1 := by omega
      rw [he]

theorem playAudio_notfound (pf : Platform) (chain : List SoundMap)
    (name : String) (vol : Option Rat)
    (h : ∀ m ∈ chain, lookupSound m name = none) :
    playAudio pf chain name vol = none := by
  induction chain with
  | nil => rfl
  | cons m parents ih =>
    simp only [playAudio, h m (List.mem_cons_self m parents)]
    exact ih (fun m' hm' => h m' (List.mem_cons_of_mem _ hm'))

/-! ## Claim theorems -/

/-- C6: teardown (`dispose`) clears the rendering flag, releases the
surface, its children, the flyout palette and the trashcan via their own
teardown, leaving the all-null state; calling it a second time produces no
error and the same all-null state (idempotent, null-safe). -/
theorem dispose_idempotent_all_null (ws : WsLifecycle) :
    dispose ws = disposedState ∧
    dispose (dispose ws) = dispose ws ∧
    (dispose ws).rendered = false ∧
    (dispose ws).topBlocks = [] ∧
    (dispose ws).svgGroup_ = false ∧
    (dispose ws).svgBlockCanvas_ = false ∧
    (dispose ws).svgBubbleCanvas_ = false ∧
    (dispose ws).flyout_ = false ∧
    (dispose ws).trashcan = false := by
  have h := dispose_eq ws
  rw [h, dispose_eq disposedState]
  simp [disposedState]

/-- C8: render-all visits every block reachable from the top-level set and
calls render exactly on the blocks with no children — a rendered id is an
id of a reachable childless block and conversely; on a set where block A
(id 1) has child B (id 2), only B is rendered. -/
theorem renderAll_only_leaves :
    (∀ (tops : List Block) (i : Nat),
        i ∈ renderAll tops ↔
          ∃ b, b ∈ allBlocksL tops ∧ b.id = i ∧ b.children = []) ∧
    renderAll [Block.node 1 [Block.node 2 []]] = [2] := by
  refine ⟨renderAll_mem, ?_⟩
  simp [renderAll, allBlocksL, Block.children, Block.id]

/-- C9: preload plays every registered sound at volume .01 and immediately
pauses it, except on the iPad/iPhone platform class where the loop exits
after processing exactly the first registered sound, leaving the rest
unpreloaded. -/
theorem preload_platform_break (pf : Platform) (sounds : SoundMap) :
    ((pf.ipad || pf.iphone) = true →
      preloadAudio_ pf sounds =
        (sounds.take 1).map (fun nf => ⟨nf.1, 1 / 100⟩)) ∧
    ((pf.ipad || pf.iphone) = false →
      preloadAudio_ pf sounds = sounds.map (fun nf => ⟨nf.1, 1 / 100⟩)) :=
  ⟨preloadAudio_mobile pf sounds, preloadAudio_desktop pf sounds⟩

theorem preload_platform_break_witness :
    preloadAudio_ ⟨false, true, false, false⟩ [("a", "a.wav"), ("b", "b.wav")]
      = [⟨"a", 1 / 100⟩] ∧
    preloadAudio_ ⟨false, false, false, false⟩ [("a", "a.wav"), ("b", "b.wav")]
      = [⟨"a", 1 / 100⟩, ⟨"b", 1 / 100⟩] := by
  constructor
  · have h := (preload_platform_break ⟨false, true, false, false⟩
      [("a", "a.wav"), ("b", "b.wav")]).1 rfl
    rw [h]
    rfl
  · have h := (preload_platform_break ⟨false, false, false, false⟩
      [("a", "a.wav"), ("b", "b.wav")]).2 rfl
    rw [h]
    rfl

/-- C10: play with an explicit volume uses it as-is — volume 0 plays at
volume 0 — and the default volume 1 applies exactly when the volume
argument is undefined (`none`): an explicit-undefined comparison, not a
falsiness test. -/
theorem playAudio_explicit_volume :
    (∀ (pf : Platform) (chain : List SoundMap) (name : String) (v : Rat)
        (act : PlayAct),
        playAudio pf chain name (some v) = some act → act.volume = v) ∧
    (∀ (pf : Platform) (chain : List SoundMap) (name : String)
        (act : PlayAct),
        playAudio pf chain name none = some act → act.volume = 1) := by
  constructor
  · intro pf chain name v act h
    simpa using playAudio_volume pf chain name (some v) act h
  · intro pf chain name act h
    simpa using playAudio_volume pf chain name none act h

theorem playAudio_explicit_volume_witness :
    (⟨"g.wav", 0, true⟩ : PlayAct).volume = 0 ∧
    (⟨"g.wav", 1, true⟩ : PlayAct).volume = 1 := by
  constructor
  · exact playAudio_explicit_volume.1 ⟨false, false, false, false⟩
      [[("go", "g.wav")]] "go" 0 ⟨"g.wav", 0, true⟩ rfl
  · exact playAudio_explicit_volume.2 ⟨false, false, false, false⟩
      [[("go", "g.wav")]] "go" ⟨"g.wav", 1, true⟩ rfl

/-- C7: play on a name registered on this workspace plays the cached
handle (directly or as a `cloneNode` clone, chosen by the IE9/iPad/Android
platform test); an unregistered name delegates exactly one level up to the
parent chain; exhausting the chain with no match is a silent no-op. -/
theorem playAudio_delegation :
    (∀ (pf : Platform) (m : SoundMap) (parents : List SoundMap)
        (name : String) (vol : Option Rat) (f : String),
        lookupSound m name = some f →
        playAudio pf (m :: parents) name vol =
          some ⟨f, vol.getD 1, !(pf.ie9 || pf.ipad || pf.android)⟩) ∧
    (∀ (pf : Platform) (m : SoundMap) (parents : List SoundMap)
        (name : String) (vol : Option Rat),
        lookupSound m name = none →
        playAudio pf (m :: parents) name vol =
          playAudio pf parents name vol) ∧
    (∀ (pf : Platform) (chain : List SoundMap) (name : String)
        (vol : Option Rat),
        (∀ m ∈ chain, lookupSound m name = none) →
        playAudio pf chain name vol = none) := by
  refine ⟨?_, ?_, ?_⟩
  · intro pf m parents name vol f h
    simp only [playAudio, h]
    cases vol <;> rfl
  · intro pf m parents name vol h
    simp only [playAudio, h]
  · intro pf chain name vol h
    exact playAudio_notfound pf chain name vol h

theorem playAudio_delegation_witness :
    playAudio ⟨false, false, false, false⟩ [[("go", "g.wav")]] "go" none
      = some ⟨"g.wav", 1, true⟩ ∧
    playAudio ⟨false, false, false, false⟩
        [[("click", "c.wav")], [("go", "g.wav")]] "go" none
      = playAudio ⟨false, false, false, false⟩ [[("go", "g.wav")]] "go" none ∧
    playAudio ⟨false, false, false, false⟩ [[("click", "c.wav")]] "go" none
      = none := by
  refine ⟨?_, ?_, ?_⟩
  · have h := playAudio_delegation.1 ⟨false, false, false, false⟩
      [("go", "g.wav")] [] "go" none "g.wav" rfl
    simpa using h
  · exact playAudio_delegation.2.1 ⟨false, false, false, false⟩
      [("click", "c.wav")] [[("go", "g.wav")]] "go" none rfl
  · exact playAudio_delegation.2.2 ⟨false, false, false, false⟩
      [[("click", "c.wav")]] "go" none (by decide)

/-- C3: the delete hit-test checks the trash rectangle first — inside it,
the trash opens, the delete cursor is set and the result is true; whenever
a trash rectangle exists and the point is outside it the trash is closed
unconditionally (even inside the palette); inside the palette rectangle
the result is true; in neither zone the cursor goes to the neutral
(closed-hand) state and the result is false. -/
theorem isDeleteArea_zones (st : DeleteAreaState) (p : Coord) :
    (∀ r, st.trashRect = some r → r.containsPt p = true →
        isDeleteArea st p =
          ({ st with trashOpen := true, cursor := .deleteHand }, true)) ∧
    (∀ r, st.trashRect = some r → r.containsPt p = false →
        (isDeleteArea st p).1.trashOpen = false) ∧
    (∀ r, st.toolboxRect = some r → r.containsPt p = true →
        (isDeleteArea st p).2 = true) ∧
    ((∀ r, st.trashRect = some r → r.containsPt p = false) →
     (∀ r, st.toolboxRect = some r → r.containsPt p = false) →
     (isDeleteArea st p).1.cursor = .closedHand ∧
       (isDeleteArea st p).2 = false) := by
  refine ⟨?_, ?_, ?_, ?_⟩
  · intro r hr hc
    simp [isDeleteArea, hr, hc]
  · intro r hr hc
    rcases hB : st.toolboxRect with _ | rB
    · simp [isDeleteArea, checkToolbox, hr, hc, hB]
    · by_cases hcb : rB.containsPt p = true
      · simp [isDeleteArea, checkToolbox, hr, hc, hB, hcb]
      · simp [isDeleteArea, checkToolbox, hr, hc, hB, hcb]
  · intro r hr hc
    rcases hT : st.trashRect with _ | rT
    · simp [isDeleteArea, checkToolbox, hT, hr, hc]
    · by_cases hct : rT.containsPt p = true
      · simp [isDeleteArea, hT, hct]
      · simp [isDeleteArea, checkToolbox, hT, hct, hr, hc]
  · intro h1 h2
    rcases hT : st.trashRect with _ | rT <;>
      rcases hB : st.toolboxRect with _ | rB
    · simp [isDeleteArea, checkToolbox, hT, hB]
    · simp [isDeleteArea, checkToolbox, hT, hB, h2 rB hB]
    · simp [isDeleteArea, checkToolbox, hT, hB, h1 rT hT]
    · simp [isDeleteArea, checkToolbox, hT, hB, h1 rT hT, h2 rB hB]

theorem isDeleteArea_zones_witness :
    isDeleteArea ⟨some ⟨0, 0, 10, 10⟩, some ⟨20, 0, 10, 10⟩, false, .openHand⟩
        ⟨5, 5⟩ =
      (⟨some ⟨0, 0, 10, 10⟩, some ⟨20, 0, 10, 10⟩, true, .deleteHand⟩, true) ∧
    (isDeleteArea ⟨some ⟨0, 0, 10, 10⟩, some ⟨20, 0, 10, 10⟩, true, .openHand⟩
        ⟨25, 5⟩).1.trashOpen = false ∧
    (isDeleteArea ⟨some ⟨0, 0, 10, 10⟩, some ⟨20, 0, 10, 10⟩, true, .openHand⟩
        ⟨25, 5⟩).2 = true ∧
    (isDeleteArea ⟨some ⟨0, 0, 10, 10⟩, some ⟨20, 0, 10, 10⟩, true, .openHand⟩
        ⟨50, 50⟩).1.cursor = .closedHand := by
  refine ⟨?_, ?_, ?_, ?_⟩
  · exact (isDeleteArea_zones
      ⟨some ⟨0, 0, 10, 10⟩, some ⟨20, 0, 10, 10⟩, false, .openHand⟩ ⟨5, 5⟩).1
      ⟨0, 0, 10, 10⟩ rfl (by decide)
  · exact (isDeleteArea_zones
      ⟨some ⟨0, 0, 10, 10⟩, some ⟨20, 0, 10, 10⟩, true, .openHand⟩ ⟨25, 5⟩).2.1
      ⟨0, 0, 10, 10⟩ rfl (by decide)
  · exact (isDeleteArea_zones
      ⟨some ⟨0, 0, 10, 10⟩, some ⟨20, 0, 10, 10⟩, true, .openHand⟩ ⟨25, 5⟩).2.2.1
      ⟨20, 0, 10, 10⟩ rfl (by decide)
  · exact ((isDeleteArea_zones
      ⟨some ⟨0, 0, 10, 10⟩, some ⟨20, 0, 10, 10⟩, true, .openHand⟩ ⟨50, 50⟩).2.2.2
      (fun r hr => by cases hr; decide) (fun r hr => by cases hr; decide)).1

/-- C5: at most one handle is cached per logical name (registration
preserves key uniqueness of the cache), registration caches the first
candidate whose extension the capability probe declares playable —
["a.mp3","a.wav"] with only wav playable selects a.wav — a fresh name with
no playable candidate stays unregistered, and only registration (never
play) consults the probe. -/
theorem loadAudio_selection :
    (∀ (sup : Bool) (canPlay : String → Bool) (fns : List String)
        (n : String) (sounds : SoundMap),
        (sounds.map Prod.fst).Nodup →
        ((loadAudio_ sup canPlay fns n sounds).map Prod.fst).Nodup) ∧
    (∀ (canPlay : String → Bool) (fns : List String) (n : String)
        (sounds : SoundMap),
        lookupSound (loadAudio_ true canPlay fns n sounds) n =
          match firstPlayable canPlay fns with
          | some f => some f
          | none => lookupSound sounds n) ∧
    (∀ (canPlay : String → Bool) (fns : List String) (n : String)
        (sounds : SoundMap),
        firstPlayable canPlay fns = none → lookupSound sounds n = none →
        lookupSound (loadAudio_ true canPlay fns n sounds) n = none) ∧
    loadAudio_ true (fun s => s = "audio/wav") ["a.mp3", "a.wav"] "go" []
      = [("go", "a.wav")] := by
  have hsel : ∀ (canPlay : String → Bool) (fns : List String) (n : String)
      (sounds : SoundMap),
      lookupSound (loadAudio_ true canPlay fns n sounds) n =
        match firstPlayable canPlay fns with
        | some f => some f
        | none => lookupSound sounds n := by
    intro canPlay fns n sounds
    cases fns with
    | nil => simp [loadAudio_, firstPlayable]
    | cons f fs =>
      rw [loadAudio_]
      simp only [Bool.not_true, Bool.false_or, List.isEmpty_cons,
        Bool.false_eq_true, if_false]
      cases hfp : firstPlayable canPlay (f :: fs) with
      | some g => simp [lookupSound_insertSound_self]
      | none => simp
  refine ⟨?_, hsel, ?_, ?_⟩
  · intro sup canPlay fns n sounds hnd
    rw [loadAudio_]
    by_cases hguard : (!sup || fns.isEmpty) = true
    · rw [if_pos hguard]
      exact hnd
    · rw [if_neg hguard]
      cases hfp : firstPlayable canPlay fns with
      | none => exact hnd
      | some f =>
        rw [insertSound_keys]
        by_cases hm : n ∈ sounds.map Prod.fst
        · rw [if_pos hm]
          exact hnd
        · rw [if_neg hm]
          simp [List.nodup_append, hnd, hm]
  · intro canPlay fns n sounds hfp hlook
    rw [hsel canPlay fns n sounds, hfp]
    exact hlook
  · decide

theorem loadAudio_selection_witness :
    ((loadAudio_ true (fun s => s = "audio/wav") ["a.mp3", "a.wav"] "go"
        [("click", "c.wav")]).map Prod.fst).Nodup ∧
    lookupSound (loadAudio_ true (fun _ => false) ["a.mp3"] "go" []) "go"
      = none := by
  constructor
  · exact loadAudio_selection.1 true (fun s => s = "audio/wav")
      ["a.mp3", "a.wav"] "go" [("click", "c.wav")] (by decide)
  · exact loadAudio_selection.2.2.1 (fun _ => false) ["a.mp3"] "go" []
      (by decide) rfl

/-- C2: paste silently rejects — no deserialization, no workspace change —
exactly when accepting the pasted tree (its descendant blocks plus the
root) would exceed the remaining capacity; under capacity (with snap
increment at least 2 and enough fuel for the bounded displacement loop) it
deserializes, repositions and selects the block. -/
theorem paste_capacity_gate (S : Int) (fuel : Nat) (ws : Ws) (xml : XmlBlock) :
    (paste S fuel ws xml = .rejected ↔
      ws.remainingCapacity < (xml.descendantBlocks : Int) + 1) ∧
    (2 ≤ S → ws.blocks.length + 2 ≤ fuel →
      (xml.descendantBlocks : Int) + 1 ≤ ws.remainingCapacity →
      ∃ p : Coord, paste S fuel ws xml = .pasted p true) := by
  constructor
  · by_cases hcap : (xml.descendantBlocks : Int) ≥ ws.remainingCapacity
    · rw [paste, if_pos hcap]
      exact ⟨fun _ => by omega, fun _ => rfl⟩
    · rw [paste, if_neg hcap]
      constructor
      · intro h
        exfalso
        rcases hx : xml.posX with _ | x <;> rcases hy : xml.posY with _ | y <;>
          rw [hx, hy] at h <;> try exact PasteResult.noConfusion h
        rcases hl : pasteLoop ws.RTL S (ws.blocks ++ [domToBlockStart]) fuel
            ⟨if ws.RTL then -x else x, y⟩ with _ | c <;>
          simp only [hl] at h <;> exact PasteResult.noConfusion h
      · intro hlt
        exfalso
        omega
  · intro hS hfuel hcap
    have hcap' : ¬((xml.descendantBlocks : Int) ≥ ws.remainingCapacity) := by
      omega
    rw [paste, if_neg hcap']
    rcases hx : xml.posX with _ | x <;> rcases hy : xml.posY with _ | y
    · exact ⟨domToBlockStart, rfl⟩
    · exact ⟨domToBlockStart, rfl⟩
    · exact ⟨domToBlockStart, rfl⟩
    · have hex : ∃ k : Nat, ∀ b ∈ ws.blocks ++ [domToBlockStart],
          collideB ((bump ws.RTL S)^[k]
            (⟨if ws.RTL then -x else x, y⟩ : Coord)) b = false := by
        obtain ⟨k, -, hk⟩ := exists_clean ws.RTL S hS
          (ws.blocks ++ [domToBlockStart]) ⟨if ws.RTL then -x else x, y⟩
        exact ⟨k, hk⟩
      classical
      have hspec := Nat.find_spec hex
      have hmin : ∀ j < Nat.find hex,
          ∃ b ∈ ws.blocks ++ [domToBlockStart],
            collideB ((bump ws.RTL S)^[j]
              (⟨if ws.RTL then -x else x, y⟩ : Coord)) b = true := by
        intro j hj
        have hnot := Nat.find_min hex hj
        by_contra hno
        push_neg at hno
        apply hnot
        intro b hb
        have hb' := hno b hb
        revert hb'
        cases collideB ((bump ws.RTL S)^[j]
          (⟨if ws.RTL then -x else x, y⟩ : Coord)) b <;> simp
      have hbound : Nat.find hex ≤ (ws.blocks ++ [domToBlockStart]).length := by
        obtain ⟨k, hk, hkc⟩ := exists_clean ws.RTL S hS
          (ws.blocks ++ [domToBlockStart]) ⟨if ws.RTL then -x else x, y⟩
        exact le_trans (Nat.find_min' hex hkc) hk
      have hlen : (ws.blocks ++ [domToBlockStart]).length
          = ws.blocks.length + 1 := by simp
      have hloop := pasteLoop_progress ws.RTL S (ws.blocks ++ [domToBlockStart])
        fuel (Nat.find hex) ⟨if ws.RTL then -x else x, y⟩
        hmin hspec (by omega)
      dsimp only
      rw [hloop]
      exact ⟨_, rfl⟩

theorem paste_capacity_gate_witness :
    paste 20 3 ⟨false, [⟨10, 10⟩], 1⟩ ⟨1, some 10, some 10⟩
      = .rejected ∧
    paste 20 3 ⟨false, [⟨10, 10⟩], 2⟩ ⟨1, some 10, some 10⟩
      = .pasted ⟨30, 50⟩ true := by
  constructor
  · exact (paste_capacity_gate 20 3 ⟨false, [⟨10, 10⟩], 1⟩
      ⟨1, some 10, some 10⟩).1.mpr (by norm_num)
  · obtain ⟨p, hp⟩ := (paste_capacity_gate 20 3 ⟨false, [⟨10, 10⟩], 2⟩
      ⟨1, some 10, some 10⟩).2 (by norm_num) (by norm_num) (by norm_num)
    have hev : paste 20 3 (⟨false, [⟨10, 10⟩], 2⟩ : Ws) ⟨1, some 10, some 10⟩
        = .pasted ⟨30, 50⟩ true := by decide
    exact hev

theorem collideB_eq_false (c b : Coord)
    (h : ¬((c.x - b.x).natAbs ≤ 1 ∧ (c.y - b.y).natAbs ≤ 1)) :
    collideB c b = false := by
  rw [← Bool.not_eq_true, collideB_true_iff]
  exact h

/-- C4: a paste whose initial candidate collides with an existing block
ends at a position differing from every existing block's position by more
than one unit in at least one axis; after every displacement step the
accumulated vertical displacement is exactly twice the magnitude of the
accumulated horizontal displacement (the step is (±S, +2S)). -/
theorem paste_displacement_invariant (S : Int) (fuel : Nat) (ws : Ws)
    (xml : XmlBlock) (x y : Int) (p : Coord) (sel : Bool)
    (hS : 0 ≤ S) (hx : xml.posX = some x) (hy : xml.posY = some y)
    (_hcol : anyCollide ws.blocks ⟨if ws.RTL then -x else x, y⟩ = true)
    (hp : paste S fuel ws xml = .pasted p sel) :
    (∀ b ∈ ws.blocks, collideB p b = false) ∧
    (∀ k : Nat,
      ((bump ws.RTL S)^[k] (⟨if ws.RTL then -x else x, y⟩ : Coord)).y - y =
        2 * |((bump ws.RTL S)^[k] (⟨if ws.RTL then -x else x, y⟩ : Coord)).x -
              (if ws.RTL then -x else x)|) := by
  constructor
  · rw [paste] at hp
    by_cases hcap : (xml.descendantBlocks : Int) ≥ ws.remainingCapacity
    · rw [if_pos hcap] at hp
      exact PasteResult.noConfusion hp
    · rw [if_neg hcap, hx, hy] at hp
      dsimp only at hp
      rcases hl : pasteLoop ws.RTL S (ws.blocks ++ [domToBlockStart]) fuel
          ⟨if ws.RTL then -x else x, y⟩ with _ | c
      · rw [hl] at hp
        exact PasteResult.noConfusion hp
      · rw [hl] at hp
        obtain ⟨k, -, -, hclean⟩ := pasteLoop_spec ws.RTL S
          (ws.blocks ++ [domToBlockStart]) fuel
          ⟨if ws.RTL then -x else x, y⟩ c hl
        injection hp with h1 h2
        intro b hb
        rw [← h1]
        have hpc : (⟨domToBlockStart.x + c.x, domToBlockStart.y + c.y⟩ : Coord)
            = c := by
          ext <;> simp [domToBlockStart]
        rw [hpc]
        exact hclean b (List.mem_append_left _ hb)
  · intro k
    rw [bump_iterate]
    have hks : 0 ≤ (k : Int) * S := mul_nonneg (Int.natCast_nonneg k) hS
    cases hR : ws.RTL
    · simp only [Bool.false_eq_true, if_false]
      rw [show x + (k : Int) * S - x = (k : Int) * S by ring,
        abs_of_nonneg hks]
      ring
    · simp only [if_true]
      rw [show -x + -((k : Int) * S) - -x = -((k : Int) * S) by ring,
        abs_neg, abs_of_nonneg hks]
      ring

theorem paste_displacement_invariant_witness :
    collideB ⟨30, 50⟩ ⟨10, 10⟩ = false ∧
    ((bump false 20)^[1] (⟨10, 10⟩ : Coord)).y - 10 =
      2 * |((bump false 20)^[1] (⟨10, 10⟩ : Coord)).x - 10| := by
  have h := paste_displacement_invariant 20 3 ⟨false, [⟨10, 10⟩], 100⟩
    ⟨0, some 10, some 10⟩ 10 10 ⟨30, 50⟩ true (by norm_num) rfl rfl
    (by decide) (by decide)
  exact ⟨h.1 ⟨10, 10⟩ (List.mem_cons_self _ _), h.2 1⟩

/-- C1: the paste placement algorithm — negate x under RTL, then displace
the candidate by (±S, +2S) repeatedly until a scan over the blocks on the
workspace finds zero collisions (the source's continue-scanning loop
computes the same final candidate as the spec's shift-and-re-scan-from-
the-top loop), then apply the candidate as a relative move of the new
block and select it; in particular pasting a block recorded at (10,10)
onto an LTR workspace with one block at (10,10) takes one displacement
cycle to the final position (10+S, 10+2S), selected. -/
theorem paste_placement_algorithm :
    (∀ (RTL : Bool) (S : Int) (blocks : List Coord) (fuel₁ fuel₂ : Nat)
        (c c₁ c₂ : Coord),
        pasteLoop RTL S blocks fuel₁ c = some c₁ →
        specLoop RTL S blocks fuel₂ c = some c₂ → c₁ = c₂) ∧
    (∀ (S : Int) (fuel : Nat), 2 ≤ S → 2 ≤ fuel →
        paste S fuel ⟨false, [⟨10, 10⟩], 100⟩ ⟨0, some 10, some 10⟩ =
          .pasted ⟨10 + S, 10 + 2 * S⟩ true) := by
  constructor
  · intro RTL S blocks fuel₁ fuel₂ c c₁ c₂ h₁ h₂
    exact loops_agree RTL S blocks fuel₁ fuel₂ c c₁ c₂ h₁ h₂
  · intro S fuel hS hfuel
    have hdirty : ∀ j < 1, ∃ b ∈ ([⟨10, 10⟩, ⟨0, 0⟩] : List Coord),
        collideB ((bump false S)^[j] ⟨10, 10⟩) b = true := by
      intro j hj
      have hj0 : j = 0 := by omega
      subst hj0
      refine ⟨⟨10, 10⟩, by simp, ?_⟩
      simp only [Function.iterate_zero_apply]
      decide
    have hclean : ∀ b ∈ ([⟨10, 10⟩, ⟨0, 0⟩] : List Coord),
        collideB ((bump false S)^[1] ⟨10, 10⟩) b = false := by
      intro b hb
      rw [Function.iterate_one]
      fin_cases hb <;>
      · apply collideB_eq_false
        simp only [bump, Bool.false_eq_true, if_false]
        omega
    have hloop := pasteLoop_progress false S [⟨10, 10⟩, ⟨0, 0⟩] fuel 1
      ⟨10, 10⟩ hdirty hclean (by omega)
    rw [Function.iterate_one] at hloop
    rw [paste, if_neg (by norm_num)]
    dsimp only
    simp only [domToBlockStart, List.cons_append, List.nil_append,
      Bool.false_eq_true, if_false]
    rw [hloop]
    simp only [bump, Bool.false_eq_true, if_false]
    norm_num

theorem paste_placement_algorithm_witness :
    ((⟨30, 50⟩ : Coord) = ⟨30, 50⟩) ∧
    paste 20 2 ⟨false, [⟨10, 10⟩], 100⟩ ⟨0, some 10, some 10⟩
      = .pasted ⟨30, 50⟩ true := by
  constructor
  · exact paste_placement_algorithm.1 false 20 [⟨10, 10⟩, ⟨0, 0⟩] 3 3
      ⟨10, 10⟩ ⟨30, 50⟩ ⟨30, 50⟩ (by decide) (by decide)
  · have h := paste_placement_algorithm.2 20 2 (by norm_num) (by norm_num)
    rw [h]
    norm_num

end Blockly
